import Mathlib

/-!
Verification of the libloadorder load-order engine (`src/plugins.cpp`).

The C++ code is shallowly embedded: `Plugin` is a value type holding a
filename; the filesystem, the libespm plugin-header queries and the
Windows-1252 transcoding service are abstracted as explicit environments
(`GameFS`, `EncSvc`); timestamps are threaded as a state `String → Int`
keyed by on-disk filename.  Filenames are assumed to contain no directory
separators, so `boost::filesystem::path::extension` / `stem` act on the
whole string.
-/

namespace Liblo

/-- Per-character lower-casing of a string. -/
def lowerStr (s : String) : String := String.mk (s.toList.map Char.toLower)

/-- `boost::iequals`: per-character case-insensitive equality. -/
def iequalsStr (a b : String) : Bool := lowerStr a == lowerStr b

/-- Index of the last '.' in a character list, if any. -/
def lastDotIdx : List Char → Option Nat
  | [] => none
  | c :: cs =>
    match lastDotIdx cs with
    | some i => some (i + 1)
    | none => if c = '.' then some 0 else none

/-- `boost::filesystem::path::extension` for a bare filename: if the name
contains a dot and is not "." or "..", the substring from the rightmost
dot to the end; otherwise empty. -/
def pathExtension (s : String) : String :=
  if s = "." ∨ s = ".." then ""
  else
    match lastDotIdx s.toList with
    | none => ""
    | some i => String.mk (s.toList.drop i)

/-- `boost::filesystem::path::stem` for a bare filename: the name minus
its extension. -/
def pathStem (s : String) : String :=
  if s = "." ∨ s = ".." then s
  else
    match lastDotIdx s.toList with
    | none => s
    | some i => String.mk (s.toList.take i)

/-- `liblo::Plugin`: a value type identified by a filename. -/
structure Plugin where
  name : String
deriving DecidableEq, Repr

/-- `Plugin::Plugin(filename)`: strips a trailing ".ghost" extension
(case-insensitively) from the stored name. -/
def mkPlugin (filename : String) : Plugin :=
  if iequalsStr (pathExtension filename) ".ghost" then ⟨pathStem filename⟩
  else ⟨filename⟩

/-- `Plugin::operator==`: case-insensitive comparison of the stored
(canonical) names. -/
def pluginEq (a b : Plugin) : Bool := iequalsStr a.name b.name

/-- `Plugin::IsValid`: the canonical name ends in ".esp" or ".esm",
case-insensitively. -/
def Plugin.IsValidExt (p : Plugin) : Bool :=
  iequalsStr (pathExtension p.name) ".esp" || iequalsStr (pathExtension p.name) ".esm"

/-- Abstraction of the per-game filesystem and libespm header queries:
which filenames exist in the data directory, which on-disk plugin files
are flagged as masters, and the master list in each plugin's header. -/
structure GameFS where
  fileExists : String → Bool
  isMasterPath : String → Bool
  mastersOfPath : String → List String

/-- `Plugin::IsGhosted`: `<name>.ghost` exists in the data directory. -/
def Plugin.IsGhosted (fs : GameFS) (p : Plugin) : Bool :=
  fs.fileExists (p.name ++ ".ghost")

/-- `Plugin::Exists`: either `<name>` or `<name>.ghost` exists. -/
def Plugin.ExistsOnDisk (fs : GameFS) (p : Plugin) : Bool :=
  fs.fileExists p.name || fs.fileExists (p.name ++ ".ghost")

/-- The real on-disk filename of a plugin (ghost resolution), as used by
`IsMasterFile`, `GetMasters`, `GetModTime` and `SetModTime`. -/
def Plugin.resolvedName (fs : GameFS) (p : Plugin) : String :=
  if p.IsGhosted fs then p.name ++ ".ghost" else p.name

/-- `Plugin::IsMasterFile`: libespm master-flag query on the real path. -/
def Plugin.IsMasterFile (fs : GameFS) (p : Plugin) : Bool :=
  fs.isMasterPath (p.resolvedName fs)

/-- `Plugin::GetMasters`: the header's master filenames, each wrapped in
a `Plugin` (so ".ghost" suffixes would be stripped, as in the source). -/
def Plugin.GetMasters (fs : GameFS) (p : Plugin) : List Plugin :=
  (fs.mastersOfPath (p.resolvedName fs)).map mkPlugin

/-- `Plugin::GetModTime` on a timestamp state (success path). -/
def Plugin.GetModTime (σ : String → Int) (fs : GameFS) (p : Plugin) : Int :=
  σ (p.resolvedName fs)

/-- `Plugin::SetModTime`: functional update of the timestamp state at the
plugin's real on-disk filename. -/
def Plugin.SetModTime (σ : String → Int) (fs : GameFS) (p : Plugin) (t : Int) :
    String → Int :=
  fun s => if s = p.resolvedName fs then t else σ s

/-- The game identifiers of `_lo_game_handle_int::Id()`. -/
inductive GameId where
  | tes3 | tes4 | tes5 | fo3 | fonv | fo4
deriving DecidableEq, Repr

/-- The two load-order methods. -/
inductive Method where
  | timestamp | textfile
deriving DecidableEq, Repr

/-- The parts of `_lo_game_handle_int` the load-order engine reads:
game id, canonical master filename, and ordering method. -/
structure Ctx where
  id : GameId
  masterFile : String
  method : Method
deriving Repr

/-- A `liblo::LoadOrder` is a `std::vector<Plugin>`. -/
abbrev LoadOrder := List Plugin

/-- An `liblo::ActivePlugins` is a `boost::unordered_set<Plugin>`,
modelled as the list of its members in internal iteration order. -/
abbrev ActivePlugins := List Plugin

/-- `LoadOrder::Find`: linear scan by case-insensitive plugin equality;
returns the length (`size()`) on miss. -/
def LoadOrder.Find (l : LoadOrder) (p : Plugin) : Nat :=
  match l with
  | [] => 0
  | q :: qs => if pluginEq p q then 0 else (LoadOrder.Find qs p) + 1

/-- `LoadOrder::Move(newPos, plugin)`: if the plugin is absent, insert it
at `newPos`; otherwise erase it at its current position `pos` and
reinsert at `newPos`, decremented by one when `pos < newPos`. -/
def LoadOrder.Move (l : LoadOrder) (newPos : Nat) (p : Plugin) : LoadOrder :=
  if l.Find p = l.length then l.insertIdx newPos p
  else (l.eraseIdx (l.Find p)).insertIdx (if l.Find p < newPos then newPos - 1 else newPos) p

/-- Invariant I2 of the spec: all master plugins precede all non-master
plugins. -/
def mastersBefore (fs : GameFS) (l : List Plugin) : Prop :=
  List.Pairwise (fun a b => b.IsMasterFile fs = true → a.IsMasterFile fs = true) l

instance (fs : GameFS) (l : List Plugin) : Decidable (mastersBefore fs l) :=
  List.instDecidablePairwise l

/-- Compatibility of a `Move` call with invariant I2: the effective
insertion point (after the erase, with the source's `newPos - 1`
adjustment) lands a master before the first non-master, or a non-master
after the last master. -/
def moveCompatible (fs : GameFS) (l : LoadOrder) (pos : Nat) (p : Plugin) : Prop :=
  (l.Find p = l.length →
    (p.IsMasterFile fs = true → ∀ q ∈ l.take pos, q.IsMasterFile fs = true) ∧
    (p.IsMasterFile fs = false → ∀ q ∈ l.drop pos, q.IsMasterFile fs = false)) ∧
  (l.Find p < l.length →
    (p.IsMasterFile fs = true →
      ∀ q ∈ (l.eraseIdx (l.Find p)).take (if l.Find p < pos then pos - 1 else pos),
        q.IsMasterFile fs = true) ∧
    (p.IsMasterFile fs = false →
      ∀ q ∈ (l.eraseIdx (l.Find p)).drop (if l.Find p < pos then pos - 1 else pos),
        q.IsMasterFile fs = false))

instance (fs : GameFS) (l : LoadOrder) (pos : Nat) (p : Plugin) :
    Decidable (moveCompatible fs l pos p) := by
  unfold moveCompatible
  exact inferInstance

/-- The inner timestamp-update loop of `LoadOrder::Save` (TIMESTAMP
branch): walks the tail of the sequence with a running last-assigned
time, writing `lastTime + 60` to any element whose mtime is not strictly
greater than the running time. -/
def tsSaveLoop (fs : GameFS) : List Plugin → (String → Int) → Int → (String → Int)
  | [], σ, _ => σ
  | p :: ps, σ, lastTime =>
    if p.GetModTime σ fs > lastTime then tsSaveLoop fs ps σ (p.GetModTime σ fs)
    else tsSaveLoop fs ps (p.SetModTime σ fs (lastTime + 60)) (lastTime + 60)

/-- `LoadOrder::Save`, TIMESTAMP branch: seeds the running time from
element 0's mtime and runs the update loop over the rest.  `at(0)` on an
empty vector throws, modelled as `none`.  The in-memory sequence is not
modified, so the result carries it back unchanged. -/
def LoadOrder.SaveTimestamp (fs : GameFS) (σ : String → Int) :
    LoadOrder → Option ((String → Int) × LoadOrder)
  | [] => none
  | p :: ps => some (tsSaveLoop fs ps σ (p.GetModTime σ fs), p :: ps)

/-- Concatenation of a list of strings. -/
def concatStr : List String → String
  | [] => ""
  | s :: ss => s ++ concatStr ss

/-- `LoadOrder::Save`, TEXTFILE branch, restricted to its effect on the
load-order file and the in-memory sequence: writes one canonical name
per line and leaves the sequence unchanged. -/
def LoadOrder.SaveTextfile (l : LoadOrder) : String × LoadOrder :=
  (concatStr (l.map (fun p => p.name ++ "\n")), l)

/-- The mtime sequence the spec describes for the TIMESTAMP save:
running-time recurrence over the tail. -/
def tsSpecAux (lastTime : Int) : List Int → List Int
  | [] => []
  | t :: ts =>
    if t > lastTime then t :: tsSpecAux t ts
    else (lastTime + 60) :: tsSpecAux (lastTime + 60) ts

/-- The mtime sequence the spec describes for the TIMESTAMP save:
element 0 anchors the running time. -/
def tsSpecSeq : List Int → List Int
  | [] => []
  | t :: ts => t :: tsSpecAux t ts

/-- The main loop of `LoadOrder::IsValid`: for each element in turn,
checks existence, masters-before-non-masters (via the `wasMaster` flag),
absence from the hash set of earlier elements, and that every header
master is already in that hash set; then adds the element to the set. -/
def loIsValidLoop (fs : GameFS) : List Plugin → Bool → List Plugin → Bool
  | [], _, _ => true
  | p :: ps, wasMaster, seen =>
    if !(p.ExistsOnDisk fs) then false
    else if p.IsMasterFile fs && !wasMaster then false
    else if seen.any (fun q => pluginEq q p) then false
    else if (p.GetMasters fs).any (fun m => seen.all (fun q => !(pluginEq q m))) then false
    else loIsValidLoop fs ps (p.IsMasterFile fs) (p :: seen)

/-- `LoadOrder::IsValid`: first compares `at(0)` with the canonical
master — on an empty vector `at(0)` throws `std::out_of_range`, modelled
as `none` — then runs the main loop over the whole sequence. -/
def LoadOrder.IsValid (fs : GameFS) (ctx : Ctx) : LoadOrder → Option Bool
  | [] => none
  | p0 :: rest =>
    some (if pluginEq p0 (mkPlugin ctx.masterFile) = false then false
          else loIsValidLoop fs (p0 :: rest) true [])

/-- Accumulator form of the masters-before-non-masters scan: `w` is the
`wasMaster` flag carried across the element just before the list. -/
def mastersOkFrom (fs : GameFS) : Bool → List Plugin → Prop
  | _, [] => True
  | w, p :: ps =>
    (p.IsMasterFile fs = true → w = true) ∧ mastersOkFrom fs (p.IsMasterFile fs) ps

/-- Accumulator form of the no-duplicates scan: each element is distinct
(case-insensitively) from all of `seen` and from all earlier elements. -/
def freshFrom : List Plugin → List Plugin → Prop
  | _, [] => True
  | seen, p :: ps => (∀ q ∈ seen, pluginEq q p = false) ∧ freshFrom (p :: seen) ps

/-- Accumulator form of the masters-listed-earlier scan: every header
master of each element is matched in `seen` or among earlier elements. -/
def mastersSeenFrom (fs : GameFS) : List Plugin → List Plugin → Prop
  | _, [] => True
  | seen, p :: ps =>
    (∀ m ∈ p.GetMasters fs, ∃ q ∈ seen, pluginEq q m = true) ∧
      mastersSeenFrom fs (p :: seen) ps

/-- Invariant I5 of the spec (and the order condition of
`ActivePlugins::IsValid`): every master listed in an element's header
matches some strictly earlier element. -/
def mastersListedEarlier (fs : GameFS) (l : List Plugin) : Prop :=
  ∀ i, ∀ h : i < l.length, ∀ m ∈ Plugin.GetMasters fs (l.get ⟨i, h⟩),
    ∃ q ∈ l.take i, pluginEq q m = true

/-- Invariant I4 of the spec: no case-insensitive duplicates. -/
def noDuplicates (l : List Plugin) : Prop :=
  List.Pairwise (fun a b => pluginEq a b = false) l

instance (l : List Plugin) : Decidable (noDuplicates l) :=
  List.instDecidablePairwise l

/-- `emplace` into a `boost::unordered_set<Plugin>` with case-insensitive
hash/equality: a no-op when an equal member is present, otherwise the new
member joins the iteration order (modelled at the end). -/
def setEmplace (s : ActivePlugins) (p : Plugin) : ActivePlugins :=
  if s.any (fun q => pluginEq q p) then s else s ++ [p]

/-- Abstraction of the external Windows-1252 transcoding service
(`helpers.cpp`, not under `src/`).  Modelled from the spec:
`utf8_to_windows1252` fails with `BAD_FILENAME` if any character is
unrepresentable, and the save loop remembers the failing plugin name, so
the failure carries the name; `windows1252_to_utf8` is total. -/
structure EncSvc where
  canEncode : String → Bool
  encodeStr : String → String
  decodeStr : String → String

/-- Modelled from the spec: `Transcoder::Utf8ToEnc`, failing on names
with characters unrepresentable in Windows-1252, error payload the name. -/
def utf8ToEnc (e : EncSvc) (s : String) : Except String String :=
  if e.canEncode s then Except.ok (e.encodeStr s) else Except.error s

/-- Modelled from the spec: `Transcoder::EncToUtf8`, total. -/
def encToUtf8 (e : EncSvc) (s : String) : String := e.decodeStr s

/-- Whole-line match of the Morrowind ini regex
`GameFile[0-9]{1,3}=.+\.es(m|p)` with `icase`: a case-insensitive
"GameFile", one to three digits, '=', then at least one character
followed by a case-insensitive ".esm" or ".esp". -/
def matchGameFileLine (line : String) : Bool :=
  let cs := line.toList
  if (cs.take 8).map Char.toLower = "gamefile".toList then
    let rest := cs.drop 8
    let ds := rest.takeWhile Char.isDigit
    if 1 ≤ ds.length && ds.length ≤ 3 then
      match rest.drop ds.length with
      | '=' :: v =>
        decide (5 ≤ v.length) &&
          ((v.drop (v.length - 4)).map Char.toLower = ".esm".toList ||
           (v.drop (v.length - 4)).map Char.toLower = ".esp".toList)
      | _ => false
    else false
  else false

/-- `line.substr(line.find('=') + 1)` on a line known to contain '='. -/
def afterFirstEq (s : String) : String :=
  String.mk ((s.toList.dropWhile (fun c => c ≠ '=')).drop 1)

/-- The TES5 fixup at the end of `ActivePlugins::Load`: note the
`else if` — when "Skyrim.esm" was absent and is inserted, the
"Update.esm" branch is never taken. -/
def tes5ActiveFixup (fs : GameFS) (s : ActivePlugins) : ActivePlugins :=
  if !(s.any (fun q => pluginEq q (mkPlugin "Skyrim.esm"))) then
    setEmplace s (mkPlugin "Skyrim.esm")
  else if (mkPlugin "Update.esm").ExistsOnDisk fs &&
      !(s.any (fun q => pluginEq q (mkPlugin "Update.esm"))) then
    setEmplace s (mkPlugin "Update.esm")
  else s

/-- The structured error kinds of §7 that the embedded operations can
surface. -/
inductive LibloErr where
  | fileParseFail | fileNotUtf8 | fileWriteFail
  | timestampReadFail | timestampWriteFail | badFilename
deriving DecidableEq, Repr

/-- `ActivePlugins::Load`: `none` for the file means the open failed
(`FILE_PARSE_FAIL`); TES3 lines go through the ini regex and the text
after the first '='; other games skip empty and '#' lines; every kept
name is transcoded from Windows-1252 and emplaced; TES5 then runs the
two-branch fixup. -/
def ActivePlugins.Load (e : EncSvc) (fs : GameFS) (ctx : Ctx)
    (file : Option (List String)) : Except LibloErr ActivePlugins :=
  match file with
  | none => Except.error LibloErr.fileParseFail
  | some lines =>
    let s : ActivePlugins :=
      if ctx.id = GameId.tes3 then
        lines.foldl
          (fun acc line =>
            if line = "" || !matchGameFileLine line then acc
            else setEmplace acc (mkPlugin (encToUtf8 e (afterFirstEq line)))) []
      else
        lines.foldl
          (fun acc line =>
            if line = "" || line.startsWith "#" then acc
            else setEmplace acc (mkPlugin (encToUtf8 e line))) []
    Except.ok (if ctx.id = GameId.tes5 then tes5ActiveFixup fs s else s)

/-- The main loop of `ActivePlugins::IsValid`: for each member in
iteration order, checks existence and that every header master is in the
hash set of members iterated so far, then adds the member to the set. -/
def apIsValidLoop (fs : GameFS) : List Plugin → List Plugin → Bool
  | [], _ => true
  | p :: ps, seen =>
    if !(p.ExistsOnDisk fs) then false
    else if (p.GetMasters fs).any (fun m => seen.all (fun q => !(pluginEq q m))) then false
    else apIsValidLoop fs ps (p :: seen)

/-- `ActivePlugins::IsValid`: the member loop, then the 255 cap, then
for TES5 the "Skyrim.esm" membership and the conditional "Update.esm"
membership. -/
def ActivePlugins.IsValid (fs : GameFS) (ctx : Ctx) (act : ActivePlugins) : Bool :=
  if apIsValidLoop fs act [] = false then false
  else if act.length > 255 then false
  else if ctx.id = GameId.tes5 then
    if act.any (fun q => pluginEq q (mkPlugin "Skyrim.esm")) = false then false
    else if (mkPlugin "Update.esm").ExistsOnDisk fs = true ∧
        act.any (fun q => pluginEq q (mkPlugin "Update.esm")) = false then false
    else true
  else true

/-- The sequence of plugins `ActivePlugins::Save` writes: for TIMESTAMP
games, the set in iteration order; otherwise the in-memory load order
filtered to active members, skipping for TES5 any entry whose name is
byte-equal (case-sensitively, `std::string::operator==`) to the
configured master file. -/
def apEntrySeq (ctx : Ctx) (act : ActivePlugins) (lo : LoadOrder) : List Plugin :=
  if ctx.method = Method.timestamp then act
  else
    lo.filter (fun p =>
      act.any (fun q => pluginEq q p) &&
        !(ctx.id = GameId.tes5 && p.name == ctx.masterFile))

/-- The TIMESTAMP-branch output loop of `ActivePlugins::Save`: for TES3
each entry is preceded by `GameFileN=` (written before the transcoding
attempt, so it stays even when the name fails to transcode); a failed
transcode writes nothing further for that entry and records the name. -/
def apSaveLoopTS (e : EncSvc) (tes3 : Bool) :
    List Plugin → Nat → String → String → String × String
  | [], _, out, bad => (out, bad)
  | p :: ps, i, out, bad =>
    let out1 := if tes3 then out ++ "GameFile" ++ toString i ++ "=" else out
    match utf8ToEnc e p.name with
    | Except.ok s => apSaveLoopTS e tes3 ps (i + 1) (out1 ++ s ++ "\n") bad
    | Except.error n => apSaveLoopTS e tes3 ps (i + 1) out1 n

/-- The TEXTFILE-branch output loop of `ActivePlugins::Save`. -/
def apSaveLoopTF (e : EncSvc) : List Plugin → String → String → String × String
  | [], out, bad => (out, bad)
  | p :: ps, out, bad =>
    match utf8ToEnc e p.name with
    | Except.ok s => apSaveLoopTF e ps (out ++ s ++ "\n") bad
    | Except.error n => apSaveLoopTF e ps out n

/-- First index at which `pat` occurs as a contiguous sub-sequence, like
`std::string::find` (byte-exact, case-sensitive). -/
def findSubIdx (pat : List Char) : List Char → Option Nat
  | [] => if pat = [] then some 0 else none
  | c :: cs =>
    if pat.isPrefixOf (c :: cs) then some 0
    else (findSubIdx pat cs).map (fun i => i + 1)

/-- The `settings` string of the TES3 branch of `ActivePlugins::Save`:
everything up to and including the first exact occurrence of
"[Game Files]" in the existing ini contents, or empty when that exact
byte string does not occur. -/
def iniHead (contents : String) : String :=
  match findSubIdx "[Game Files]".toList contents.toList with
  | some pos => String.mk (contents.toList.take (pos + 12))
  | none => ""

/-- The `settings` string computed at the top of `ActivePlugins::Save`
(empty unless the game is TES3). -/
def apSaveSettings (ctx : Ctx) (iniContents : String) : String :=
  if ctx.id = GameId.tes3 then iniHead iniContents else ""

/-- The opening of the rewritten active-plugins file: the preserved ini
segment followed by `endl` when non-empty. -/
def apSaveBase (ctx : Ctx) (iniContents : String) : String :=
  if apSaveSettings ctx iniContents ≠ "" then apSaveSettings ctx iniContents ++ "\n"
  else ""

/-- The body of `ActivePlugins::Save`: the branch on the ordering
method, returning (file contents, final `badFilename`). -/
def apSaveRun (e : EncSvc) (ctx : Ctx) (iniContents : String)
    (act : ActivePlugins) (lo : LoadOrder) : String × String :=
  if ctx.method = Method.timestamp then
    apSaveLoopTS e (decide (ctx.id = GameId.tes3)) (apEntrySeq ctx act lo) 0
      (apSaveBase ctx iniContents) ""
  else
    apSaveLoopTF e (apEntrySeq ctx act lo) (apSaveBase ctx iniContents) ""

/-- `ActivePlugins::Save`: returns the rewritten file contents and, when
some name failed to transcode, the `BAD_FILENAME` warning payload raised
after the file is closed (carrying the last failing name). -/
def ActivePlugins.Save (e : EncSvc) (ctx : Ctx) (iniContents : String)
    (act : ActivePlugins) (lo : LoadOrder) : String × Option String :=
  ((apSaveRun e ctx iniContents act lo).1,
   if (apSaveRun e ctx iniContents act lo).2 = "" then none
   else some (apSaveRun e ctx iniContents act lo).2)

/-! ## Concrete fixtures used by witnesses and counterexamples -/

/-- A data directory holding `A.esm` (a master), `B.esp` and `C.esp`. -/
def fsW3 : GameFS :=
  ⟨fun s => s == "A.esm" || s == "B.esp" || s == "C.esp",
   fun s => s == "A.esm", fun _ => []⟩

/-- Mtimes 100, 100, 50 for `A.esm`, `B.esp`, `C.esp` (scenario S4). -/
def sigW3 : String → Int :=
  fun s => if s == "A.esm" then 100 else if s == "B.esp" then 100 else 50

/-- A TES4 (Oblivion) context: TIMESTAMP ordering. -/
def ctxTes4 : Ctx := ⟨GameId.tes4, "Oblivion.esm", Method.timestamp⟩

/-- A data directory with master `A.esm` and plugin `B.esp`, where
`B.esp`'s header lists `A.esm` as a master. -/
def fsC2 : GameFS :=
  ⟨fun s => s == "A.esm" || s == "B.esp",
   fun s => s == "A.esm",
   fun s => if s == "B.esp" then ["A.esm"] else []⟩

/-- A TES5 (Skyrim) context: TEXTFILE ordering, master "Skyrim.esm". -/
def ctxTes5 : Ctx := ⟨GameId.tes5, "Skyrim.esm", Method.textfile⟩

/-- A TES3 (Morrowind) context: TIMESTAMP ordering. -/
def ctxTes3 : Ctx := ⟨GameId.tes3, "Morrowind.esm", Method.timestamp⟩

/-- A Skyrim data directory containing `Skyrim.esm` and `Update.esm`. -/
def fsC1 : GameFS :=
  ⟨fun s => s == "Skyrim.esm" || s == "Update.esm",
   fun s => s == "Skyrim.esm" || s == "Update.esm", fun _ => []⟩

/-- A transcoding service on which every name succeeds. -/
def encId : EncSvc := ⟨fun _ => true, fun s => s, fun s => s⟩

/-- A transcoding service failing exactly on "Bad1.esp" and "Bad2.esp". -/
def encW : EncSvc :=
  ⟨fun s => !(s == "Bad1.esp" || s == "Bad2.esp"), fun s => s, fun s => s⟩

/-- An active set / load order with two names that fail to transcode. -/
def actW : ActivePlugins :=
  [mkPlugin "A.esp", mkPlugin "Bad1.esp", mkPlugin "Bad2.esp", mkPlugin "B.esp"]

/-- A load order whose first entry matches "Skyrim.esm" only up to case. -/
def loC10 : LoadOrder := [mkPlugin "skyrim.esm", mkPlugin "A.esp"]

/-- A Morrowind.ini body whose section header differs in case from the
exact byte string "[Game Files]". -/
def iniC9 : String := "junk\n[game files]\nGameFile0=Old.esm\n"

/-- A data directory holding only the files `A.esp.ghost` and `B.esp`. -/
def fsC3 : GameFS :=
  ⟨fun s => s == "A.esp.ghost" || s == "B.esp", fun _ => false, fun _ => []⟩

/-- Mtimes 100 for `A.esp.ghost` and 200 for `B.esp`. -/
def sigC3 : String → Int :=
  fun s => if s == "A.esp.ghost" then 100 else if s == "B.esp" then 200 else 0

/-- A load order with no case-insensitive duplicates whose first and
last entries nevertheless resolve to the SAME on-disk file
`A.esp.ghost`: the plugin named "A.esp" is ghosted, and the plugin
built from the filename "A.esp.ghost.ghost" keeps the name
"A.esp.ghost" (one ghost suffix stripped), which exists as-is. -/
def loC3 : LoadOrder :=
  [mkPlugin "A.esp", mkPlugin "B.esp", mkPlugin "A.esp.ghost.ghost"]

/-! ## Basic lemmas -/

theorem iequalsStr_comm (a b : String) : iequalsStr a b = iequalsStr b a := by
  unfold iequalsStr
  by_cases h : lowerStr a = lowerStr b
  · rw [h]
  · rw [beq_eq_false_iff_ne.mpr h, beq_eq_false_iff_ne.mpr (Ne.symm h)]

theorem pluginEq_comm (a b : Plugin) : pluginEq a b = pluginEq b a :=
  iequalsStr_comm a.name b.name

theorem toList_append (a b : String) : (a ++ b).toList = a.toList ++ b.toList := rfl

theorem lastDotIdx_append_ghost :
    ∀ xs : List Char, lastDotIdx (xs ++ ['.', 'g', 'h', 'o', 's', 't']) = some xs.length
  | [] => rfl
  | c :: cs => by
    have ih := lastDotIdx_append_ghost cs
    show (match lastDotIdx (cs ++ ['.', 'g', 'h', 'o', 's', 't']) with
          | some i => some (i + 1)
          | none => if c = '.' then some 0 else none) = some (cs.length + 1)
    rw [ih]

theorem append_ghost_ne_dot (f : String) : ¬(f ++ ".ghost" = "." ∨ f ++ ".ghost" = "..") := by
  rintro (h | h) <;>
    · have hl := congrArg (fun s => s.toList.length) h
      simp [toList_append] at hl

theorem pathExtension_append_ghost (f : String) : pathExtension (f ++ ".ghost") = ".ghost" := by
  unfold pathExtension
  rw [if_neg (append_ghost_ne_dot f)]
  have h1 : (f ++ ".ghost").toList = f.toList ++ ['.', 'g', 'h', 'o', 's', 't'] := rfl
  rw [h1, lastDotIdx_append_ghost]
  show String.mk ((f.toList ++ ['.', 'g', 'h', 'o', 's', 't']).drop f.toList.length) = ".ghost"
  rw [List.drop_left]

theorem pathStem_append_ghost (f : String) : pathStem (f ++ ".ghost") = f := by
  unfold pathStem
  rw [if_neg (append_ghost_ne_dot f)]
  have h1 : (f ++ ".ghost").toList = f.toList ++ ['.', 'g', 'h', 'o', 's', 't'] := rfl
  rw [h1, lastDotIdx_append_ghost]
  show String.mk ((f.toList ++ ['.', 'g', 'h', 'o', 's', 't']).take f.toList.length) = f
  rw [List.take_left]
  rfl

theorem mkPlugin_append_ghost (f : String) : mkPlugin (f ++ ".ghost") = Plugin.mk f := by
  unfold mkPlugin
  rw [pathExtension_append_ghost, pathStem_append_ghost]
  simp [iequalsStr]

/-! ## Claim C5 -/

/-- C5 counterexample: for the filename "a.esp.ghost" — which already
ends in ".ghost" — `Plugin(f).name()` is "a.esp" while
`Plugin(f + ".ghost").name()` is "a.esp.ghost", so the universally
quantified identity of the claim fails. -/
theorem C5_counterexample :
    ¬((mkPlugin "a.esp.ghost").name = (mkPlugin ("a.esp.ghost" ++ ".ghost")).name) := by
  decide

/-- C5 (amended): for every filename `f` whose extension is not ".ghost"
(case-insensitively), `Plugin(f).name() = Plugin(f + ".ghost").name()`;
and plugin equality is case-insensitive, e.g.
`Plugin("A.esp") == Plugin("a.ESP")`. -/
theorem C5_amended (f : String) (h : iequalsStr (pathExtension f) ".ghost" = false) :
    (mkPlugin f).name = (mkPlugin (f ++ ".ghost")).name ∧
      pluginEq (mkPlugin "A.esp") (mkPlugin "a.ESP") = true := by
  refine ⟨?_, by decide⟩
  rw [mkPlugin_append_ghost]
  unfold mkPlugin
  rw [if_neg (by simp [h])]

/-- C5 witness: the amended identity applied at the concrete filename
"A.esp". -/
theorem C5_witness :
    iequalsStr (pathExtension "A.esp") ".ghost" = false ∧
      ((mkPlugin "A.esp").name = (mkPlugin ("A.esp" ++ ".ghost")).name ∧
        pluginEq (mkPlugin "A.esp") (mkPlugin "a.ESP") = true) :=
  ⟨by decide, C5_amended "A.esp" (by decide)⟩

/-! ## Claim C3: timestamp-save monotonicity -/

theorem tsSaveLoop_frame (fs : GameFS) :
    ∀ (ps : List Plugin) (σ : String → Int) (r : Int) (s : String),
      (∀ p ∈ ps, p.resolvedName fs ≠ s) → tsSaveLoop fs ps σ r s = σ s
  | [], _, _, _, _ => rfl
  | p :: ps, σ, r, s, h => by
    have hp : p.resolvedName fs ≠ s := h p (List.mem_cons_self p ps)
    have hps : ∀ q ∈ ps, q.resolvedName fs ≠ s := fun q hq => h q (List.mem_cons_of_mem p hq)
    show (if p.GetModTime σ fs > r then tsSaveLoop fs ps σ (p.GetModTime σ fs)
          else tsSaveLoop fs ps (p.SetModTime σ fs (r + 60)) (r + 60)) s = σ s
    by_cases hgt : p.GetModTime σ fs > r
    · rw [if_pos hgt]
      exact tsSaveLoop_frame fs ps σ _ s hps
    · rw [if_neg hgt, tsSaveLoop_frame fs ps _ _ s hps]
      show (if s = p.resolvedName fs then r + 60 else σ s) = σ s
      rw [if_neg (Ne.symm hp)]

theorem tsSaveLoop_spec (fs : GameFS) :
    ∀ (ps : List Plugin) (σ : String → Int) (r : Int),
      (ps.map (Plugin.resolvedName fs)).Nodup →
      ps.map (fun q => tsSaveLoop fs ps σ r (q.resolvedName fs)) =
        tsSpecAux r (ps.map (fun q => σ (q.resolvedName fs)))
  | [], _, _, _ => rfl
  | p :: ps, σ, r, hnd => by
    obtain ⟨hp, hnd'⟩ := List.nodup_cons.mp hnd
    have hfr : ∀ (σ1 : String → Int) (r1 : Int),
        tsSaveLoop fs ps σ1 r1 (p.resolvedName fs) = σ1 (p.resolvedName fs) := by
      intro σ1 r1
      refine tsSaveLoop_frame fs ps σ1 r1 _ (fun q hq hc => hp ?_)
      exact hc ▸ List.mem_map_of_mem (Plugin.resolvedName fs) hq
    by_cases hgt : p.GetModTime σ fs > r
    · show (if p.GetModTime σ fs > r then tsSaveLoop fs ps σ (p.GetModTime σ fs)
            else tsSaveLoop fs ps (p.SetModTime σ fs (r + 60)) (r + 60)) (p.resolvedName fs) ::
          ps.map (fun q => tsSaveLoop fs (p :: ps) σ r (q.resolvedName fs)) =
        tsSpecAux r (σ (p.resolvedName fs) :: ps.map (fun q => σ (q.resolvedName fs)))
      rw [if_pos hgt]
      have hmap : ps.map (fun q => tsSaveLoop fs (p :: ps) σ r (q.resolvedName fs)) =
          ps.map (fun q => tsSaveLoop fs ps σ (p.GetModTime σ fs) (q.resolvedName fs)) := by
        refine List.map_congr_left (fun q _ => ?_)
        show (if p.GetModTime σ fs > r then tsSaveLoop fs ps σ (p.GetModTime σ fs)
              else tsSaveLoop fs ps (p.SetModTime σ fs (r + 60)) (r + 60)) (q.resolvedName fs) =
          tsSaveLoop fs ps σ (p.GetModTime σ fs) (q.resolvedName fs)
        rw [if_pos hgt]
      rw [hmap, hfr, tsSaveLoop_spec fs ps σ _ hnd']
      have hgt2 : σ (p.resolvedName fs) > r := hgt
      show σ (p.resolvedName fs) ::
          tsSpecAux (σ (p.resolvedName fs)) (ps.map fun q => σ (q.resolvedName fs)) =
        if σ (p.resolvedName fs) > r then
          σ (p.resolvedName fs) ::
            tsSpecAux (σ (p.resolvedName fs)) (ps.map fun q => σ (q.resolvedName fs))
        else (r + 60) :: tsSpecAux (r + 60) (ps.map fun q => σ (q.resolvedName fs))
      rw [if_pos hgt2]
    · show (if p.GetModTime σ fs > r then tsSaveLoop fs ps σ (p.GetModTime σ fs)
            else tsSaveLoop fs ps (p.SetModTime σ fs (r + 60)) (r + 60)) (p.resolvedName fs) ::
          ps.map (fun q => tsSaveLoop fs (p :: ps) σ r (q.resolvedName fs)) =
        tsSpecAux r (σ (p.resolvedName fs) :: ps.map (fun q => σ (q.resolvedName fs)))
      rw [if_neg hgt]
      have hmap : ps.map (fun q => tsSaveLoop fs (p :: ps) σ r (q.resolvedName fs)) =
          ps.map (fun q =>
            tsSaveLoop fs ps (p.SetModTime σ fs (r + 60)) (r + 60) (q.resolvedName fs)) := by
        refine List.map_congr_left (fun q _ => ?_)
        show (if p.GetModTime σ fs > r then tsSaveLoop fs ps σ (p.GetModTime σ fs)
              else tsSaveLoop fs ps (p.SetModTime σ fs (r + 60)) (r + 60)) (q.resolvedName fs) =
          tsSaveLoop fs ps (p.SetModTime σ fs (r + 60)) (r + 60) (q.resolvedName fs)
        rw [if_neg hgt]
      have hsig : ps.map (fun q => p.SetModTime σ fs (r + 60) (q.resolvedName fs)) =
          ps.map (fun q => σ (q.resolvedName fs)) := by
        refine List.map_congr_left (fun q hq => ?_)
        show (if q.resolvedName fs = p.resolvedName fs then r + 60 else σ (q.resolvedName fs)) =
          σ (q.resolvedName fs)
        refine if_neg (fun hc => hp ?_)
        exact hc ▸ List.mem_map_of_mem (Plugin.resolvedName fs) hq
      rw [hmap, hfr, tsSaveLoop_spec fs ps _ _ hnd', hsig]
      show p.SetModTime σ fs (r + 60) (p.resolvedName fs) :: _ = _
      rw [show p.SetModTime σ fs (r + 60) (p.resolvedName fs) = r + 60 from if_pos rfl]
      have hgt2 : ¬σ (p.resolvedName fs) > r := hgt
      show (r + 60) :: tsSpecAux (r + 60) (ps.map fun q => σ (q.resolvedName fs)) =
        if σ (p.resolvedName fs) > r then
          σ (p.resolvedName fs) ::
            tsSpecAux (σ (p.resolvedName fs)) (ps.map fun q => σ (q.resolvedName fs))
        else (r + 60) :: tsSpecAux (r + 60) (ps.map fun q => σ (q.resolvedName fs))
      rw [if_neg hgt2]

theorem tsSpecAux_chain :
    ∀ (ts : List Int) (r x : Int), x ≤ r → List.Chain' (· ≤ ·) (x :: tsSpecAux r ts)
  | [], _, x, _ => List.chain'_singleton x
  | t :: ts, r, x, hxr => by
    show List.Chain' (· ≤ ·)
      (x :: if t > r then t :: tsSpecAux t ts else (r + 60) :: tsSpecAux (r + 60) ts)
    by_cases hgt : t > r
    · rw [if_pos hgt]
      exact List.chain'_cons.mpr ⟨le_of_lt (lt_of_le_of_lt hxr hgt), tsSpecAux_chain ts t t le_rfl⟩
    · rw [if_neg hgt]
      exact List.chain'_cons.mpr ⟨by omega, tsSpecAux_chain ts (r + 60) (r + 60) le_rfl⟩

theorem tsSpecSeq_chain (ts : List Int) : List.Chain' (· ≤ ·) (tsSpecSeq ts) := by
  cases ts with
  | nil => exact List.chain'_nil
  | cons t ts => exact tsSpecAux_chain ts t t le_rfl

/-- C3 counterexample: the claim as stated, over EVERY non-empty
in-memory load order, is false.  `loC3` has no case-insensitive
duplicates (I4) and every entry exists on disk (I3), yet its first and
last entries alias the same on-disk file `A.esp.ghost`: the save's
write for the last entry (100 ≤ 200, so it is assigned 260)
retroactively changes element 0's on-disk mtime, giving final mtimes
[260, 200, 260] in load order — not non-decreasing, and different from
the claimed recurrence result [100, 200, 260]. -/
theorem C3_counterexample :
    Option.map (fun r => loC3.map (fun q => r.1 (q.resolvedName fsC3)))
        (LoadOrder.SaveTimestamp fsC3 sigC3 loC3) =
      some [260, 200, 260] ∧
    ¬List.Chain' ((· ≤ ·) : Int → Int → Prop) [260, 200, 260] ∧
    tsSpecSeq (loC3.map (fun q => sigC3 (q.resolvedName fsC3))) = [100, 200, 260] ∧
    noDuplicates loC3 ∧
    (∀ q ∈ loC3, q.ExistsOnDisk fsC3 = true) := by
  refine ⟨by decide, ?_, by decide, by decide, by decide⟩
  intro h
  have h1 : (260 : Int) ≤ 200 := (List.chain'_cons.mp h).1
  omega

/-- C3 (amended): for a non-empty load order whose entries resolve to
pairwise distinct on-disk filenames — i.e. without the double-ghost
aliasing exhibited by the counterexample — the TIMESTAMP save succeeds,
leaves the sequence unchanged, and the resulting on-disk mtimes taken in
load order follow the running-time recurrence of the spec — element 0
anchors; a strictly greater mtime is kept and advances the running time,
any other element is assigned running time + 60 — hence they are
non-decreasing; in particular mtimes [100, 100, 50] become
[100, 160, 220]. -/
theorem C3_timestamp_save (fs : GameFS) (σ : String → Int) (p : Plugin) (ps : List Plugin)
    (hnd : ((p :: ps).map (Plugin.resolvedName fs)).Nodup) :
    ∃ σ2, LoadOrder.SaveTimestamp fs σ (p :: ps) = some (σ2, p :: ps) ∧
      (p :: ps).map (fun q => σ2 (q.resolvedName fs)) =
        tsSpecSeq ((p :: ps).map (fun q => σ (q.resolvedName fs))) ∧
      List.Chain' (· ≤ ·) ((p :: ps).map (fun q => σ2 (q.resolvedName fs))) ∧
      tsSpecSeq [100, 100, 50] = [100, 160, 220] := by
  obtain ⟨hp, hnd'⟩ := List.nodup_cons.mp hnd
  have hfr : tsSaveLoop fs ps σ (p.GetModTime σ fs) (p.resolvedName fs) =
      σ (p.resolvedName fs) := by
    refine tsSaveLoop_frame fs ps σ _ _ (fun q hq hc => hp ?_)
    exact hc ▸ List.mem_map_of_mem (Plugin.resolvedName fs) hq
  have h2 : (p :: ps).map
        (fun q => tsSaveLoop fs ps σ (p.GetModTime σ fs) (q.resolvedName fs)) =
      tsSpecSeq ((p :: ps).map (fun q => σ (q.resolvedName fs))) := by
    show tsSaveLoop fs ps σ (p.GetModTime σ fs) (p.resolvedName fs) ::
        ps.map (fun q => tsSaveLoop fs ps σ (p.GetModTime σ fs) (q.resolvedName fs)) =
      σ (p.resolvedName fs) ::
        tsSpecAux (σ (p.resolvedName fs)) (ps.map (fun q => σ (q.resolvedName fs)))
    rw [hfr, tsSaveLoop_spec fs ps σ _ hnd']
    rfl
  exact ⟨tsSaveLoop fs ps σ (p.GetModTime σ fs), rfl, h2, h2 ▸ tsSpecSeq_chain _, by decide⟩

/-- C3 witness: scenario S4 — `[A.esm (100), B.esp (100), C.esp (50)]`
under TIMESTAMP save. -/
theorem C3_witness :
    (([mkPlugin "A.esm", mkPlugin "B.esp", mkPlugin "C.esp"].map
        (Plugin.resolvedName fsW3)).Nodup) ∧
      (∃ σ2, LoadOrder.SaveTimestamp fsW3 sigW3
            [mkPlugin "A.esm", mkPlugin "B.esp", mkPlugin "C.esp"] =
          some (σ2, [mkPlugin "A.esm", mkPlugin "B.esp", mkPlugin "C.esp"]) ∧
        [mkPlugin "A.esm", mkPlugin "B.esp", mkPlugin "C.esp"].map
            (fun q => σ2 (q.resolvedName fsW3)) =
          tsSpecSeq ([mkPlugin "A.esm", mkPlugin "B.esp", mkPlugin "C.esp"].map
            (fun q => sigW3 (q.resolvedName fsW3))) ∧
        List.Chain' (· ≤ ·) ([mkPlugin "A.esm", mkPlugin "B.esp", mkPlugin "C.esp"].map
          (fun q => σ2 (q.resolvedName fsW3))) ∧
        tsSpecSeq [100, 100, 50] = [100, 160, 220]) :=
  ⟨by decide, C3_timestamp_save fsW3 sigW3 (mkPlugin "A.esm")
    [mkPlugin "B.esp", mkPlugin "C.esp"] (by decide)⟩

/-! ## List lemmas for Move -/

theorem insertIdx_eq_take_cons_drop {α : Type} (a : α) :
    ∀ (n : Nat) (l : List α), n ≤ l.length →
      l.insertIdx n a = l.take n ++ a :: l.drop n
  | 0, l, _ => by simp
  | n + 1, [], h => by simp at h
  | n + 1, c :: cs, h => by
    rw [List.insertIdx_succ_cons, insertIdx_eq_take_cons_drop a n cs (by simpa using h)]
    rfl

theorem pairwise_insertIdx {α : Type} {R : α → α → Prop} {l : List α} {n : Nat} {a : α}
    (hn : n ≤ l.length) (hl : l.Pairwise R)
    (h1 : ∀ b ∈ l.take n, R b a) (h2 : ∀ b ∈ l.drop n, R a b) :
    (l.insertIdx n a).Pairwise R := by
  rw [insertIdx_eq_take_cons_drop a n l hn]
  have hsplit : (l.take n ++ l.drop n).Pairwise R := by
    rw [List.take_append_drop]
    exact hl
  obtain ⟨ht, hd, hcross⟩ := List.pairwise_append.mp hsplit
  refine List.pairwise_append.mpr ⟨ht, List.pairwise_cons.mpr ⟨h2, hd⟩, ?_⟩
  intro x hx y hy
  rcases List.mem_cons.mp hy with rfl | hy2
  · exact h1 x hx
  · exact hcross x hx y hy2

theorem find_le (l : LoadOrder) (p : Plugin) : l.Find p ≤ l.length := by
  induction l with
  | nil => exact le_rfl
  | cons q qs ih =>
    show (if pluginEq p q = true then 0 else LoadOrder.Find qs p + 1) ≤ qs.length + 1
    by_cases h : pluginEq p q = true
    · rw [if_pos h]; omega
    · rw [if_neg h]; omega

theorem find_eq_length_iff (l : LoadOrder) (p : Plugin) :
    l.Find p = l.length ↔ ∀ q ∈ l, pluginEq p q = false := by
  induction l with
  | nil => simp [LoadOrder.Find]
  | cons q qs ih =>
    show (if pluginEq p q = true then 0 else LoadOrder.Find qs p + 1) = qs.length + 1 ↔ _
    by_cases h : pluginEq p q = true
    · rw [if_pos h]
      simp [h]
    · rw [if_neg h]
      simp only [Nat.add_right_cancel_iff, ih, List.mem_cons]
      constructor
      · intro hall r hr
        rcases hr with rfl | hr2
        · exact Bool.eq_false_iff.mpr h
        · exact hall r hr2
      · intro hall r hr
        exact hall r (Or.inr hr)

theorem find_lt_get (p : Plugin) (l : LoadOrder) :
    ∀ h : l.Find p < l.length, pluginEq p (l.get ⟨l.Find p, h⟩) = true := by
  induction l with
  | nil => intro h; simp [LoadOrder.Find] at h
  | cons q qs ih =>
    by_cases hq : pluginEq p q = true
    · have he : LoadOrder.Find (q :: qs) p = 0 := if_pos hq
      rw [he]
      intro _
      exact hq
    · have he : LoadOrder.Find (q :: qs) p = LoadOrder.Find qs p + 1 := if_neg hq
      rw [he]
      intro h
      have h2 : LoadOrder.Find qs p < qs.length := by simpa using h
      exact ih h2

theorem insertIdx_getElem?_self {α : Type} (l : List α) (n : Nat) (a : α)
    (h : n ≤ l.length) : (l.insertIdx n a)[n]? = some a := by
  rw [insertIdx_eq_take_cons_drop a n l h]
  rw [List.getElem?_append_right (by simp [Nat.min_eq_left h])]
  simp [Nat.min_eq_left h]

/-! ## Claim C7: Move/Find semantics -/

/-- C7: with `pos ≤ size`, `find` returns `size()` exactly when the
plugin is absent (case-insensitively); `move` then inserts the argument
at index `pos`, and removing that index recovers the original sequence;
when the plugin is present, `find` locates a matching element, and
`move` erases it and reinserts the argument at `pos`, adjusted to
`pos - 1` when the original index was below `pos`; the inserted plugin
sits at exactly that final index and removing it recovers the erased
sequence, so all other elements keep their relative order. -/
theorem C7_move_semantics (l : LoadOrder) (pos : Nat) (p : Plugin) (hpos : pos ≤ l.length) :
    (l.Find p = l.length ↔ ∀ q ∈ l, pluginEq p q = false) ∧
    (l.Find p = l.length →
      l.Move pos p = l.insertIdx pos p ∧
      (l.Move pos p)[pos]? = some p ∧
      (l.Move pos p).eraseIdx pos = l) ∧
    (∀ _ : l.Find p < l.length,
      pluginEq p (l.get ⟨l.Find p, by assumption⟩) = true ∧
      l.Move pos p =
        (l.eraseIdx (l.Find p)).insertIdx (if l.Find p < pos then pos - 1 else pos) p ∧
      (l.Move pos p)[if l.Find p < pos then pos - 1 else pos]? = some p ∧
      (l.Move pos p).eraseIdx (if l.Find p < pos then pos - 1 else pos) =
        l.eraseIdx (l.Find p)) := by
  refine ⟨find_eq_length_iff l p, ?_, ?_⟩
  · intro hmiss
    have hm : l.Move pos p = l.insertIdx pos p := if_pos hmiss
    refine ⟨hm, ?_, ?_⟩
    · rw [hm]
      exact insertIdx_getElem?_self l pos p hpos
    · rw [hm]
      exact List.eraseIdx_insertIdx pos l
  · intro hf
    have hne : ¬l.Find p = l.length := Nat.ne_of_lt hf
    have hm : l.Move pos p =
        (l.eraseIdx (l.Find p)).insertIdx (if l.Find p < pos then pos - 1 else pos) p :=
      if_neg hne
    have hlen : (l.eraseIdx (l.Find p)).length = l.length - 1 := by
      rw [List.length_eraseIdx, if_pos hf]
    have hle : (if l.Find p < pos then pos - 1 else pos) ≤ (l.eraseIdx (l.Find p)).length := by
      rw [hlen]
      by_cases hc : l.Find p < pos
      · rw [if_pos hc]; omega
      · rw [if_neg hc]; omega
    refine ⟨find_lt_get p l hf, hm, ?_, ?_⟩
    · rw [hm]
      exact insertIdx_getElem?_self _ _ p hle
    · rw [hm]
      exact List.eraseIdx_insertIdx _ _

/-- C7 witness: moving the present plugin "B.esp" of `[A.esp, B.esp]`
to the front (`pos = 0`). -/
theorem C7_witness :
    ((0 : Nat) ≤ ([mkPlugin "A.esp", mkPlugin "B.esp"] : LoadOrder).length) ∧
    ((LoadOrder.Find [mkPlugin "A.esp", mkPlugin "B.esp"] (mkPlugin "B.esp") =
        ([mkPlugin "A.esp", mkPlugin "B.esp"] : LoadOrder).length ↔
      ∀ q ∈ ([mkPlugin "A.esp", mkPlugin "B.esp"] : LoadOrder),
        pluginEq (mkPlugin "B.esp") q = false) ∧
    (LoadOrder.Find [mkPlugin "A.esp", mkPlugin "B.esp"] (mkPlugin "B.esp") =
        ([mkPlugin "A.esp", mkPlugin "B.esp"] : LoadOrder).length →
      LoadOrder.Move [mkPlugin "A.esp", mkPlugin "B.esp"] 0 (mkPlugin "B.esp") =
        ([mkPlugin "A.esp", mkPlugin "B.esp"] : LoadOrder).insertIdx 0 (mkPlugin "B.esp") ∧
      (LoadOrder.Move [mkPlugin "A.esp", mkPlugin "B.esp"] 0 (mkPlugin "B.esp"))[0]? =
        some (mkPlugin "B.esp") ∧
      (LoadOrder.Move [mkPlugin "A.esp", mkPlugin "B.esp"] 0 (mkPlugin "B.esp")).eraseIdx 0 =
        [mkPlugin "A.esp", mkPlugin "B.esp"]) ∧
    (∀ _ : LoadOrder.Find [mkPlugin "A.esp", mkPlugin "B.esp"] (mkPlugin "B.esp") <
        ([mkPlugin "A.esp", mkPlugin "B.esp"] : LoadOrder).length,
      pluginEq (mkPlugin "B.esp")
        (([mkPlugin "A.esp", mkPlugin "B.esp"] : LoadOrder).get
          ⟨LoadOrder.Find [mkPlugin "A.esp", mkPlugin "B.esp"] (mkPlugin "B.esp"),
            by assumption⟩) = true ∧
      LoadOrder.Move [mkPlugin "A.esp", mkPlugin "B.esp"] 0 (mkPlugin "B.esp") =
        (([mkPlugin "A.esp", mkPlugin "B.esp"] : LoadOrder).eraseIdx
            (LoadOrder.Find [mkPlugin "A.esp", mkPlugin "B.esp"] (mkPlugin "B.esp"))).insertIdx
          (if LoadOrder.Find [mkPlugin "A.esp", mkPlugin "B.esp"] (mkPlugin "B.esp") < 0 then
            0 - 1 else 0) (mkPlugin "B.esp") ∧
      (LoadOrder.Move [mkPlugin "A.esp", mkPlugin "B.esp"]
          0 (mkPlugin "B.esp"))[if LoadOrder.Find [mkPlugin "A.esp", mkPlugin "B.esp"]
            (mkPlugin "B.esp") < 0 then 0 - 1 else 0]? = some (mkPlugin "B.esp") ∧
      (LoadOrder.Move [mkPlugin "A.esp", mkPlugin "B.esp"] 0 (mkPlugin "B.esp")).eraseIdx
          (if LoadOrder.Find [mkPlugin "A.esp", mkPlugin "B.esp"] (mkPlugin "B.esp") < 0 then
            0 - 1 else 0) =
        ([mkPlugin "A.esp", mkPlugin "B.esp"] : LoadOrder).eraseIdx
          (LoadOrder.Find [mkPlugin "A.esp", mkPlugin "B.esp"] (mkPlugin "B.esp")))) :=
  ⟨by decide, C7_move_semantics [mkPlugin "A.esp", mkPlugin "B.esp"] 0 (mkPlugin "B.esp")
    (by decide)⟩

/-! ## Claim C4: preservation of I2 by Move and Save -/

theorem mastersBefore_insertIdx (fs : GameFS) {l : List Plugin} {n : Nat} {p : Plugin}
    (hn : n ≤ l.length) (hl : mastersBefore fs l)
    (hM : p.IsMasterFile fs = true → ∀ q ∈ l.take n, q.IsMasterFile fs = true)
    (hN : p.IsMasterFile fs = false → ∀ q ∈ l.drop n, q.IsMasterFile fs = false) :
    mastersBefore fs (l.insertIdx n p) := by
  refine pairwise_insertIdx hn hl ?_ ?_
  · intro b hb hpm
    exact hM hpm b hb
  · intro b hb hbm
    cases hpm : p.IsMasterFile fs with
    | true => rfl
    | false =>
      rw [hN hpm b hb] at hbm
      exact absurd hbm (by simp)

/-- C4 counterexample: `[M:=A.esm, X:=B.esp]` satisfies I2, `pos = 0 ≤
size`, yet `move(0, C.esp)` with the non-master `C.esp` produces
`[C.esp, A.esm, B.esp]`, which violates I2. -/
theorem C4_counterexample :
    mastersBefore fsW3 [mkPlugin "A.esm", mkPlugin "B.esp"] ∧
    (0 : Nat) ≤ ([mkPlugin "A.esm", mkPlugin "B.esp"] : LoadOrder).length ∧
    ¬mastersBefore fsW3
      (LoadOrder.Move [mkPlugin "A.esm", mkPlugin "B.esp"] 0 (mkPlugin "C.esp")) := by
  refine ⟨by decide, by decide, by decide⟩

/-- C4 (amended): `save` never modifies the in-memory sequence under
either method, so it preserves I2 unconditionally; `move(pos, plugin)`
with `pos ≤ size` preserves I2 exactly when the effective insertion
point is compatible with the moved plugin's master class
(`moveCompatible`); an arbitrary `move` need not preserve it. -/
theorem C4_amended (fs : GameFS) (σ : String → Int) (l : LoadOrder) (pos : Nat) (p : Plugin)
    (hI2 : mastersBefore fs l) (hpos : pos ≤ l.length) (hc : moveCompatible fs l pos p) :
    mastersBefore fs (l.Move pos p) ∧
    (∀ σ2 l2, LoadOrder.SaveTimestamp fs σ l = some (σ2, l2) → mastersBefore fs l2) ∧
    mastersBefore fs (LoadOrder.SaveTextfile l).2 := by
  refine ⟨?_, ?_, hI2⟩
  · by_cases hmiss : l.Find p = l.length
    · rw [show l.Move pos p = l.insertIdx pos p from if_pos hmiss]
      exact mastersBefore_insertIdx fs hpos hI2 (fun hm => (hc.1 hmiss).1 hm)
        (fun hm => (hc.1 hmiss).2 hm)
    · have hf : l.Find p < l.length := Nat.lt_of_le_of_ne (find_le l p) hmiss
      rw [show l.Move pos p = (l.eraseIdx (l.Find p)).insertIdx
            (if l.Find p < pos then pos - 1 else pos) p from if_neg hmiss]
      have hlen : (l.eraseIdx (l.Find p)).length = l.length - 1 := by
        rw [List.length_eraseIdx, if_pos hf]
      have hle : (if l.Find p < pos then pos - 1 else pos) ≤
          (l.eraseIdx (l.Find p)).length := by
        rw [hlen]
        by_cases hcc : l.Find p < pos
        · rw [if_pos hcc]; omega
        · rw [if_neg hcc]; omega
      exact mastersBefore_insertIdx fs hle
        (List.Pairwise.sublist (List.eraseIdx_sublist l (l.Find p)) hI2)
        (fun hm => (hc.2 hf).1 hm) (fun hm => (hc.2 hf).2 hm)
  · intro σ2 l2 h
    cases l with
    | nil => exact absurd h (by simp [LoadOrder.SaveTimestamp])
    | cons q qs =>
      have h2 : q :: qs = l2 := by
        simpa [LoadOrder.SaveTimestamp] using congrArg (fun o => Option.map Prod.snd o) h
      exact h2 ▸ hI2

/-- C4 witness: appending the absent non-master "C.esp" at the end
(`pos = 2`) of the I2-ordered `[A.esm, B.esp]`. -/
theorem C4_witness :
    mastersBefore fsW3 [mkPlugin "A.esm", mkPlugin "B.esp"] ∧
    (2 : Nat) ≤ ([mkPlugin "A.esm", mkPlugin "B.esp"] : LoadOrder).length ∧
    moveCompatible fsW3 [mkPlugin "A.esm", mkPlugin "B.esp"] 2 (mkPlugin "C.esp") ∧
    (mastersBefore fsW3
        (LoadOrder.Move [mkPlugin "A.esm", mkPlugin "B.esp"] 2 (mkPlugin "C.esp")) ∧
      (∀ σ2 l2, LoadOrder.SaveTimestamp fsW3 sigW3 [mkPlugin "A.esm", mkPlugin "B.esp"] =
          some (σ2, l2) → mastersBefore fsW3 l2) ∧
      mastersBefore fsW3 (LoadOrder.SaveTextfile [mkPlugin "A.esm", mkPlugin "B.esp"]).2) :=
  ⟨by decide, by decide, by decide,
    C4_amended fsW3 sigW3 [mkPlugin "A.esm", mkPlugin "B.esp"] 2 (mkPlugin "C.esp")
      (by decide) (by decide) (by decide)⟩

/-! ## Loop characterisations for the two IsValid operations -/

theorem loIsValidLoop_cons (fs : GameFS) (p : Plugin) (ps : List Plugin) (w : Bool)
    (seen : List Plugin) :
    loIsValidLoop fs (p :: ps) w seen = true ↔
      (p.ExistsOnDisk fs = true ∧ (p.IsMasterFile fs = true → w = true) ∧
        (∀ q ∈ seen, pluginEq q p = false) ∧
        (∀ m ∈ p.GetMasters fs, ∃ q ∈ seen, pluginEq q m = true) ∧
        loIsValidLoop fs ps (p.IsMasterFile fs) (p :: seen) = true) := by
  cases hex : p.ExistsOnDisk fs <;> cases hm : p.IsMasterFile fs <;> cases hw : w <;>
    simp [loIsValidLoop, hex, hm, List.any_eq_true, List.all_eq_true]

theorem loIsValidLoop_iff (fs : GameFS) :
    ∀ (ps : List Plugin) (w : Bool) (seen : List Plugin),
      loIsValidLoop fs ps w seen = true ↔
        ((∀ q ∈ ps, q.ExistsOnDisk fs = true) ∧ mastersOkFrom fs w ps ∧
          freshFrom seen ps ∧ mastersSeenFrom fs seen ps)
  | [], w, seen => by simp [loIsValidLoop, mastersOkFrom, freshFrom, mastersSeenFrom]
  | p :: ps, w, seen => by
    rw [loIsValidLoop_cons, loIsValidLoop_iff fs ps (p.IsMasterFile fs) (p :: seen)]
    simp only [List.forall_mem_cons, mastersOkFrom, freshFrom, mastersSeenFrom]
    tauto

theorem apIsValidLoop_iff (fs : GameFS) :
    ∀ (ps seen : List Plugin),
      apIsValidLoop fs ps seen = true ↔
        ((∀ q ∈ ps, q.ExistsOnDisk fs = true) ∧ mastersSeenFrom fs seen ps)
  | [], seen => by simp [apIsValidLoop, mastersSeenFrom]
  | p :: ps, seen => by
    have ih := apIsValidLoop_iff fs ps (p :: seen)
    cases hex : p.ExistsOnDisk fs
    all_goals simp [apIsValidLoop, hex, List.any_eq_true, List.all_eq_true, ih,
      List.forall_mem_cons, mastersSeenFrom]
    all_goals tauto

theorem mastersOkFrom_false (fs : GameFS) :
    ∀ l : List Plugin, mastersOkFrom fs false l ↔ ∀ q ∈ l, q.IsMasterFile fs = false
  | [] => by simp [mastersOkFrom]
  | p :: ps => by
    cases hm : p.IsMasterFile fs <;>
      simp [mastersOkFrom, hm, mastersOkFrom_false fs ps, List.forall_mem_cons]

theorem mastersBefore_of_all_nonmaster (fs : GameFS) (l : List Plugin)
    (h : ∀ q ∈ l, q.IsMasterFile fs = false) : mastersBefore fs l := by
  refine List.pairwise_of_forall_mem_list (fun a _ b hb hbm => ?_)
  rw [h b hb] at hbm
  exact absurd hbm (by simp)

theorem mastersOkFrom_true (fs : GameFS) :
    ∀ l : List Plugin, mastersOkFrom fs true l ↔ mastersBefore fs l
  | [] => by simp [mastersOkFrom, mastersBefore]
  | p :: ps => by
    rw [show mastersOkFrom fs true (p :: ps) =
          ((p.IsMasterFile fs = true → (true : Bool) = true) ∧
            mastersOkFrom fs (p.IsMasterFile fs) ps) from rfl]
    rw [mastersBefore, List.pairwise_cons]
    cases hm : p.IsMasterFile fs
    · rw [mastersOkFrom_false fs ps]
      constructor
      · rintro ⟨-, hall⟩
        refine ⟨fun q hq hqm => ?_, mastersBefore_of_all_nonmaster fs ps hall⟩
        rw [hall q hq] at hqm
        exact absurd hqm (by simp)
      · rintro ⟨hfst, hps⟩
        refine ⟨fun _ => rfl, fun q hq => ?_⟩
        cases hqm : q.IsMasterFile fs
        · rfl
        · exact absurd (hfst q hq hqm) (by simp)
    · rw [mastersOkFrom_true fs ps]
      constructor
      · rintro ⟨-, hps⟩
        exact ⟨fun q _ _ => rfl, hps⟩
      · rintro ⟨-, hps⟩
        exact ⟨fun _ => rfl, hps⟩

theorem freshFrom_iff :
    ∀ (l seen : List Plugin),
      freshFrom seen l ↔
        ((∀ p ∈ l, ∀ q ∈ seen, pluginEq q p = false) ∧ noDuplicates l)
  | [], seen => by simp [freshFrom, noDuplicates]
  | p :: ps, seen => by
    rw [show freshFrom seen (p :: ps) =
          ((∀ q ∈ seen, pluginEq q p = false) ∧ freshFrom (p :: seen) ps) from rfl,
      freshFrom_iff ps (p :: seen),
      show noDuplicates (p :: ps) ↔
          ((∀ r ∈ ps, pluginEq p r = false) ∧ noDuplicates ps) from by
        simp [noDuplicates, List.pairwise_cons]]
    constructor
    · rintro ⟨h1, h2, h3⟩
      refine ⟨?_, ?_, h3⟩
      · intro r hr q hq
        rcases List.mem_cons.mp hr with rfl | hr2
        · exact h1 q hq
        · exact h2 r hr2 q (List.mem_cons_of_mem _ hq)
      · exact fun r hr => h2 r hr p (List.mem_cons_self _ _)
    · rintro ⟨hA, hB, h3⟩
      refine ⟨fun q hq => hA p (List.mem_cons_self _ _) q hq, ?_, h3⟩
      intro r hr q hq
      rcases List.mem_cons.mp hq with rfl | hq2
      · exact hB r hr
      · exact hA r (List.mem_cons_of_mem _ hr) q hq2

theorem mastersSeenFrom_iff (fs : GameFS) :
    ∀ (l seen : List Plugin),
      mastersSeenFrom fs seen l ↔
        ∀ i, ∀ h : i < l.length, ∀ m ∈ Plugin.GetMasters fs (l.get ⟨i, h⟩),
          ∃ q, (q ∈ seen ∨ q ∈ l.take i) ∧ pluginEq q m = true
  | [], seen => by simp [mastersSeenFrom]
  | p :: ps, seen => by
    rw [show mastersSeenFrom fs seen (p :: ps) =
          ((∀ m ∈ p.GetMasters fs, ∃ q ∈ seen, pluginEq q m = true) ∧
            mastersSeenFrom fs (p :: seen) ps) from rfl,
      mastersSeenFrom_iff fs ps (p :: seen)]
    constructor
    · rintro ⟨h0, hrest⟩ i h m hm
      match i with
      | 0 =>
        obtain ⟨q, hq, he⟩ := h0 m hm
        exact ⟨q, Or.inl hq, he⟩
      | j + 1 =>
        obtain ⟨q, hq, he⟩ := hrest j (by simpa using h) m hm
        refine ⟨q, ?_, he⟩
        rcases hq with hq1 | hq2
        · rcases List.mem_cons.mp hq1 with rfl | hq3
          · exact Or.inr (List.mem_cons_self _ _)
          · exact Or.inl hq3
        · exact Or.inr (List.mem_cons_of_mem _ hq2)
    · intro hall
      constructor
      · intro m hm
        obtain ⟨q, hq, he⟩ := hall 0 (by simp) m hm
        rcases hq with hq1 | hq2
        · exact ⟨q, hq1, he⟩
        · simp at hq2
      · intro j hj m hm
        obtain ⟨q, hq, he⟩ := hall (j + 1) (by simpa using hj) m hm
        refine ⟨q, ?_, he⟩
        rcases hq with hq1 | hq2
        · exact Or.inl (List.mem_cons_of_mem _ hq1)
        · rcases List.mem_cons.mp hq2 with rfl | hq3
          · exact Or.inl (List.mem_cons_self _ _)
          · exact Or.inr hq3

theorem mastersSeenFrom_nil_iff (fs : GameFS) (l : List Plugin) :
    mastersSeenFrom fs [] l ↔ mastersListedEarlier fs l := by
  rw [mastersSeenFrom_iff]
  unfold mastersListedEarlier
  constructor
  · intro h i hi m hm
    obtain ⟨q, hq, he⟩ := h i hi m hm
    rcases hq with hq1 | hq2
    · simp at hq1
    · exact ⟨q, hq2, he⟩
  · intro h i hi m hm
    obtain ⟨q, hq, he⟩ := h i hi m hm
    exact ⟨q, Or.inr hq, he⟩

/-! ## Claim C6: LoadOrder::IsValid -/

/-- C6 counterexample: on the empty sequence `IsValid` evaluates `at(0)`,
which throws `std::out_of_range` (modelled as `none`) instead of
returning a boolean, so "it returns a boolean … including the empty one"
fails. -/
theorem C6_counterexample : LoadOrder.IsValid fsW3 ctxTes4 [] = none := rfl

/-- C6 (amended): on every NON-EMPTY sequence, `LoadOrder::IsValid` is a
pure query returning a boolean, and it returns true exactly when all
five invariants hold: (I1) the first element equals the canonical
master, (I2) masters precede non-masters, (I3) every element exists on
disk, (I4) no case-insensitive duplicates, (I5) every header master
appears strictly earlier in the sequence; on the empty sequence it
throws instead of returning. -/
theorem C6_amended (fs : GameFS) (ctx : Ctx) (p0 : Plugin) (rest : List Plugin) :
    (∃ b, LoadOrder.IsValid fs ctx (p0 :: rest) = some b) ∧
    (LoadOrder.IsValid fs ctx (p0 :: rest) = some true ↔
      (pluginEq p0 (mkPlugin ctx.masterFile) = true ∧
        mastersBefore fs (p0 :: rest) ∧
        (∀ q ∈ p0 :: rest, q.ExistsOnDisk fs = true) ∧
        noDuplicates (p0 :: rest) ∧
        mastersListedEarlier fs (p0 :: rest))) := by
  refine ⟨⟨_, rfl⟩, ?_⟩
  by_cases h1 : pluginEq p0 (mkPlugin ctx.masterFile) = true
  · rw [show LoadOrder.IsValid fs ctx (p0 :: rest) =
        some (if pluginEq p0 (mkPlugin ctx.masterFile) = false then false
              else loIsValidLoop fs (p0 :: rest) true []) from rfl]
    rw [if_neg (by simp [h1])]
    rw [Option.some_inj]
    rw [show (loIsValidLoop fs (p0 :: rest) true [] = true) ↔
          ((∀ q ∈ p0 :: rest, q.ExistsOnDisk fs = true) ∧
            mastersOkFrom fs true (p0 :: rest) ∧ freshFrom [] (p0 :: rest) ∧
            mastersSeenFrom fs [] (p0 :: rest)) from loIsValidLoop_iff fs (p0 :: rest) true [],
      mastersOkFrom_true, freshFrom_iff, mastersSeenFrom_nil_iff]
    simp only [List.not_mem_nil, false_implies, implies_true, true_and, h1]
    tauto
  · rw [show LoadOrder.IsValid fs ctx (p0 :: rest) =
        some (if pluginEq p0 (mkPlugin ctx.masterFile) = false then false
              else loIsValidLoop fs (p0 :: rest) true []) from rfl]
    rw [if_pos ((Bool.not_eq_true _) ▸ h1)]
    simp [h1]

/-! ## Claim C2: ActivePlugins::IsValid -/

/-- C2 counterexample: for TES4 and iteration order `[B.esp, A.esm]`
where `B.esp`'s header lists `A.esm`, all four claimed invariants
A1–A4 hold of the set — in particular every master of every member IS a
member — yet `IsValid` returns false, because it only accepts masters
that appear EARLIER in the internal iteration order; so the claimed
"iff … regardless of internal iteration order" fails. -/
theorem C2_counterexample :
    ActivePlugins.IsValid fsC2 ctxTes4 [mkPlugin "B.esp", mkPlugin "A.esm"] = false ∧
    (∀ p ∈ ([mkPlugin "B.esp", mkPlugin "A.esm"] : ActivePlugins),
      p.ExistsOnDisk fsC2 = true) ∧
    (∀ p ∈ ([mkPlugin "B.esp", mkPlugin "A.esm"] : ActivePlugins),
      ∀ m ∈ p.GetMasters fsC2,
        ∃ q ∈ ([mkPlugin "B.esp", mkPlugin "A.esm"] : ActivePlugins),
          pluginEq q m = true) ∧
    ([mkPlugin "B.esp", mkPlugin "A.esm"] : ActivePlugins).length ≤ 255 ∧
    (ctxTes4.id = GameId.tes5 →
      (∃ q ∈ ([mkPlugin "B.esp", mkPlugin "A.esm"] : ActivePlugins),
        pluginEq q (mkPlugin "Skyrim.esm") = true) ∧
      ((mkPlugin "Update.esm").ExistsOnDisk fsC2 = true →
        ∃ q ∈ ([mkPlugin "B.esp", mkPlugin "A.esm"] : ActivePlugins),
          pluginEq q (mkPlugin "Update.esm") = true)) := by
  refine ⟨by decide, by decide, by decide, by decide, by decide⟩

/-- C2 (amended): `ActivePlugins::IsValid` returns true iff every member
exists on disk (A1), every header master of each member matches a member
iterated STRICTLY EARLIER (an iteration-order-dependent strengthening of
A2), the cardinality is at most 255 (A3), and for TES5 "Skyrim.esm" is a
member and "Update.esm" is a member whenever it exists (A4); hence true
implies A1–A4, but A1–A4 alone do not force true for every iteration
order. -/
theorem C2_amended (fs : GameFS) (ctx : Ctx) (act : ActivePlugins) :
    ActivePlugins.IsValid fs ctx act = true ↔
      ((∀ p ∈ act, p.ExistsOnDisk fs = true) ∧
        mastersListedEarlier fs act ∧
        act.length ≤ 255 ∧
        (ctx.id = GameId.tes5 →
          (∃ q ∈ act, pluginEq q (mkPlugin "Skyrim.esm") = true) ∧
          ((mkPlugin "Update.esm").ExistsOnDisk fs = true →
            ∃ q ∈ act, pluginEq q (mkPlugin "Update.esm") = true))) := by
  unfold ActivePlugins.IsValid
  by_cases hloop : apIsValidLoop fs act [] = true
  · rw [if_neg (by simp [hloop])]
    obtain ⟨hex, hml⟩ := (apIsValidLoop_iff fs act []).mp hloop
    rw [mastersSeenFrom_nil_iff] at hml
    by_cases h255 : act.length > 255
    · rw [if_pos h255]
      constructor
      · intro h
        exact absurd h (by simp)
      · rintro ⟨-, -, hle, -⟩
        omega
    · rw [if_neg h255]
      by_cases h5 : ctx.id = GameId.tes5
      · rw [if_pos h5]
        by_cases hsky : act.any (fun q => pluginEq q (mkPlugin "Skyrim.esm")) = true
        · rw [if_neg (by simp [hsky])]
          by_cases hupd : (mkPlugin "Update.esm").ExistsOnDisk fs = true ∧
              act.any (fun q => pluginEq q (mkPlugin "Update.esm")) = false
          · rw [if_pos hupd]
            constructor
            · intro h
              exact absurd h (by simp)
            · rintro ⟨-, -, -, h4⟩
              obtain ⟨-, hu⟩ := h4 h5
              obtain ⟨q, hq, he⟩ := hu hupd.1
              have hany : act.any (fun q => pluginEq q (mkPlugin "Update.esm")) = true :=
                List.any_eq_true.mpr ⟨q, hq, he⟩
              rw [hupd.2] at hany
              exact absurd hany (by simp)
          · rw [if_neg hupd]
            simp only [true_iff]
            refine ⟨hex, hml, by omega, fun _ => ⟨List.any_eq_true.mp hsky, fun hue => ?_⟩⟩
            rcases hany : act.any (fun q => pluginEq q (mkPlugin "Update.esm")) with _ | _
            · exact absurd ⟨hue, hany⟩ hupd
            · exact List.any_eq_true.mp hany
        · rw [if_pos (Bool.not_eq_true _ ▸ hsky)]
          constructor
          · intro h
            exact absurd h (by simp)
          · rintro ⟨-, -, -, h4⟩
            have := List.any_eq_true.mpr ((h4 h5).1)
            exact absurd this hsky
      · rw [if_neg h5]
        simp only [true_iff]
        exact ⟨hex, hml, by omega, fun h => absurd h h5⟩
  · rw [if_pos (Bool.not_eq_true _ ▸ hloop)]
    constructor
    · intro h
      exact absurd h (by simp)
    · rintro ⟨hex, hml, -⟩
      exact absurd ((apIsValidLoop_iff fs act []).mpr
        ⟨hex, (mastersSeenFrom_nil_iff fs act).mpr hml⟩) hloop

/-! ## Claim C1: TES5 fixup of ActivePlugins::Load -/

/-- C1: evaluation at the failing input.  TES5, an empty (but present)
plugins file, and "Update.esm" existing on disk: the loaded set is
exactly `{Skyrim.esm}` — the `else if` in the fixup never runs, so
"Update.esm" is NOT a member even though it exists on disk, contrary to
the claim (and to the source comment "Add skyrim.esm, update.esm if
missing."). -/
theorem C1_code_bug :
    (mkPlugin "Update.esm").ExistsOnDisk fsC1 = true ∧
    ActivePlugins.Load encId fsC1 ctxTes5 (some []) =
      Except.ok [mkPlugin "Skyrim.esm"] ∧
    ([mkPlugin "Skyrim.esm"] : ActivePlugins).any
      (fun q => pluginEq q (mkPlugin "Update.esm")) = false :=
  ⟨by decide, rfl, by decide⟩

/-! ## Claim C8: BAD_FILENAME handling in ActivePlugins::Save -/

theorem filter_cons_of_encode_false (e : EncSvc) (p : Plugin) (es : List Plugin)
    (hc : e.canEncode p.name = false) :
    (p :: es).filter (fun q => !(e.canEncode q.name)) =
      p :: es.filter (fun q => !(e.canEncode q.name)) := by
  rw [List.filter_cons]
  rw [if_pos (by show (!(e.canEncode p.name)) = true; rw [hc]; rfl)]

theorem filter_cons_of_encode_true (e : EncSvc) (p : Plugin) (es : List Plugin)
    (hc : e.canEncode p.name = true) :
    (p :: es).filter (fun q => !(e.canEncode q.name)) =
      es.filter (fun q => !(e.canEncode q.name)) := by
  rw [List.filter_cons]
  rw [if_neg (by show ¬(!(e.canEncode p.name)) = true; rw [hc]; exact (by decide))]

theorem apSaveLoopTF_spec (e : EncSvc) :
    ∀ (es : List Plugin) (out bad : String),
      apSaveLoopTF e es out bad =
        (out ++ concatStr (es.map (fun p =>
            if e.canEncode p.name then e.encodeStr p.name ++ "\n" else "")),
          ((es.filter (fun p => !(e.canEncode p.name))).map Plugin.name).getLastD bad)
  | [], out, bad => by
    show (out, bad) = (out ++ concatStr [], ([] : List String).getLastD bad)
    rw [show concatStr [] = "" from rfl, String.append_empty]
    rfl
  | p :: es, out, bad => by
    cases hc : e.canEncode p.name
    · have hstep : apSaveLoopTF e (p :: es) out bad = apSaveLoopTF e es out p.name := by
        have h0 : utf8ToEnc e p.name = Except.error p.name := by
          unfold utf8ToEnc; rw [hc]; rfl
        simp only [apSaveLoopTF, h0]
      rw [hstep, apSaveLoopTF_spec e es out p.name, List.map_cons,
        show (if e.canEncode p.name then e.encodeStr p.name ++ "\n" else "") = "" from by
          rw [hc]; rfl,
        filter_cons_of_encode_false e p es hc, List.map_cons, List.getLastD_cons,
        show concatStr ("" :: es.map (fun q =>
            if e.canEncode q.name then e.encodeStr q.name ++ "\n" else "")) =
          concatStr (es.map (fun q =>
            if e.canEncode q.name then e.encodeStr q.name ++ "\n" else "")) from rfl]
    · have hstep : apSaveLoopTF e (p :: es) out bad =
          apSaveLoopTF e es (out ++ e.encodeStr p.name ++ "\n") bad := by
        have h0 : utf8ToEnc e p.name = Except.ok (e.encodeStr p.name) := by
          unfold utf8ToEnc; rw [hc]; rfl
        simp only [apSaveLoopTF, h0]
      rw [hstep, apSaveLoopTF_spec e es _ bad, List.map_cons,
        show (if e.canEncode p.name then e.encodeStr p.name ++ "\n" else "") =
          e.encodeStr p.name ++ "\n" from by rw [hc]; rfl,
        filter_cons_of_encode_true e p es hc,
        show concatStr ((e.encodeStr p.name ++ "\n") :: es.map (fun q =>
            if e.canEncode q.name then e.encodeStr q.name ++ "\n" else "")) =
          (e.encodeStr p.name ++ "\n") ++ concatStr (es.map (fun q =>
            if e.canEncode q.name then e.encodeStr q.name ++ "\n" else "")) from rfl]
      simp only [String.append_assoc]

theorem apSaveLoopTS_spec (e : EncSvc) (t3 : Bool) :
    ∀ (es : List Plugin) (i : Nat) (out bad : String),
      apSaveLoopTS e t3 es i out bad =
        (out ++ concatStr ((List.enumFrom i es).map (fun x =>
            (if t3 then "GameFile" ++ toString x.1 ++ "=" else "") ++
            (if e.canEncode x.2.name then e.encodeStr x.2.name ++ "\n" else ""))),
          ((es.filter (fun p => !(e.canEncode p.name))).map Plugin.name).getLastD bad)
  | [], i, out, bad => by
    show (out, bad) = (out ++ concatStr [], ([] : List String).getLastD bad)
    rw [show concatStr [] = "" from rfl, String.append_empty]
    rfl
  | p :: es, i, out, bad => by
    have henum : (List.enumFrom i (p :: es)).map (fun x =>
          (if t3 then "GameFile" ++ toString x.1 ++ "=" else "") ++
          (if e.canEncode x.2.name then e.encodeStr x.2.name ++ "\n" else "")) =
        ((if t3 then "GameFile" ++ toString i ++ "=" else "") ++
          (if e.canEncode p.name then e.encodeStr p.name ++ "\n" else "")) ::
          (List.enumFrom (i + 1) es).map (fun x =>
            (if t3 then "GameFile" ++ toString x.1 ++ "=" else "") ++
            (if e.canEncode x.2.name then e.encodeStr x.2.name ++ "\n" else "")) := by
      rw [List.enumFrom_cons, List.map_cons]
    cases hc : e.canEncode p.name
    · have hstep : apSaveLoopTS e t3 (p :: es) i out bad =
          apSaveLoopTS e t3 es (i + 1)
            (if t3 then out ++ "GameFile" ++ toString i ++ "=" else out) p.name := by
        have h0 : utf8ToEnc e p.name = Except.error p.name := by
          unfold utf8ToEnc; rw [hc]; rfl
        simp only [apSaveLoopTS, h0]
      rw [hstep, apSaveLoopTS_spec e t3 es (i + 1) _ p.name, henum,
        show (if e.canEncode p.name then e.encodeStr p.name ++ "\n" else "") = "" from by
          rw [hc]; rfl,
        filter_cons_of_encode_false e p es hc, List.map_cons, List.getLastD_cons]
      cases t3
      · rw [if_neg (by decide), if_neg (by decide),
          show ((("" : String) ++ "") : String) = "" from rfl]
        rw [show concatStr ("" :: (List.enumFrom (i + 1) es).map (fun x =>
              (if (false : Bool) then "GameFile" ++ toString x.1 ++ "=" else "") ++
              (if e.canEncode x.2.name then e.encodeStr x.2.name ++ "\n" else ""))) =
            concatStr ((List.enumFrom (i + 1) es).map (fun x =>
              (if (false : Bool) then "GameFile" ++ toString x.1 ++ "=" else "") ++
              (if e.canEncode x.2.name then e.encodeStr x.2.name ++ "\n" else ""))) from rfl]
      · rw [if_pos (by decide), if_pos (by decide),
          String.append_empty ("GameFile" ++ toString i ++ "="),
          show concatStr (("GameFile" ++ toString i ++ "=") ::
              (List.enumFrom (i + 1) es).map (fun x =>
                (if (true : Bool) then "GameFile" ++ toString x.1 ++ "=" else "") ++
                (if e.canEncode x.2.name then e.encodeStr x.2.name ++ "\n" else ""))) =
            ("GameFile" ++ toString i ++ "=") ++
              concatStr ((List.enumFrom (i + 1) es).map (fun x =>
                (if (true : Bool) then "GameFile" ++ toString x.1 ++ "=" else "") ++
                (if e.canEncode x.2.name then e.encodeStr x.2.name ++ "\n" else ""))) from rfl]
        simp only [String.append_assoc]
    · have hstep : apSaveLoopTS e t3 (p :: es) i out bad =
          apSaveLoopTS e t3 es (i + 1)
            ((if t3 then out ++ "GameFile" ++ toString i ++ "=" else out) ++
              e.encodeStr p.name ++ "\n") bad := by
        have h0 : utf8ToEnc e p.name = Except.ok (e.encodeStr p.name) := by
          unfold utf8ToEnc; rw [hc]; rfl
        simp only [apSaveLoopTS, h0]
      rw [hstep, apSaveLoopTS_spec e t3 es (i + 1) _ bad, henum,
        show (if e.canEncode p.name then e.encodeStr p.name ++ "\n" else "") =
          e.encodeStr p.name ++ "\n" from by rw [hc]; rfl,
        filter_cons_of_encode_true e p es hc]
      cases t3
      · rw [if_neg (by decide), if_neg (by decide),
          show concatStr ((("" : String) ++ (e.encodeStr p.name ++ "\n")) ::
              (List.enumFrom (i + 1) es).map (fun x =>
                (if (false : Bool) then "GameFile" ++ toString x.1 ++ "=" else "") ++
                (if e.canEncode x.2.name then e.encodeStr x.2.name ++ "\n" else ""))) =
            (e.encodeStr p.name ++ "\n") ++
              concatStr ((List.enumFrom (i + 1) es).map (fun x =>
                (if (false : Bool) then "GameFile" ++ toString x.1 ++ "=" else "") ++
                (if e.canEncode x.2.name then e.encodeStr x.2.name ++ "\n" else ""))) from rfl]
        simp only [String.append_assoc]
      · rw [if_pos (by decide), if_pos (by decide),
          show concatStr ((("GameFile" ++ toString i ++ "=") ++
                (e.encodeStr p.name ++ "\n")) ::
              (List.enumFrom (i + 1) es).map (fun x =>
                (if (true : Bool) then "GameFile" ++ toString x.1 ++ "=" else "") ++
                (if e.canEncode x.2.name then e.encodeStr x.2.name ++ "\n" else ""))) =
            (("GameFile" ++ toString i ++ "=") ++ (e.encodeStr p.name ++ "\n")) ++
              concatStr ((List.enumFrom (i + 1) es).map (fun x =>
                (if (true : Bool) then "GameFile" ++ toString x.1 ++ "=" else "") ++
                (if e.canEncode x.2.name then e.encodeStr x.2.name ++ "\n" else ""))) from rfl]
        simp only [String.append_assoc]

theorem warn_eq_getLast? (l : List String) (h : ∀ x ∈ l, x ≠ "") :
    (if l.getLastD "" = "" then none else some (l.getLastD "")) = l.getLast? := by
  rw [List.getLastD_eq_getLast?]
  cases hl : l.getLast? with
  | none => simp
  | some a =>
    have hmem : a ∈ l := by
      obtain ⟨hne2, he⟩ := List.mem_getLast?_eq_getLast (l := l) (x := a) (by rw [hl]; rfl)
      exact he ▸ List.getLast_mem hne2
    rw [Option.getD_some, if_neg (h a hmem)]

theorem apSaveRun_snd (e : EncSvc) (ctx : Ctx) (ini : String) (act : ActivePlugins)
    (lo : LoadOrder) :
    (apSaveRun e ctx ini act lo).2 =
      (((apEntrySeq ctx act lo).filter
        (fun p => !(e.canEncode p.name))).map Plugin.name).getLastD "" := by
  unfold apSaveRun
  by_cases hm : ctx.method = Method.timestamp
  · rw [if_pos hm, apSaveLoopTS_spec]
  · rw [if_neg hm, apSaveLoopTF_spec]

/-- C8: during `ActivePlugins::Save`, transcoding failures do not stop
the loop — every remaining entry is still processed and every
successfully transcoded entry is written — and the returned warning is
exactly the last failing name (`BAD_FILENAME`, raised after the file is
closed), or absent when every name transcodes.  The file contents are
fully determined: the preserved ini segment followed by, in entry
order, the (TES3-prefixed) encodings of exactly the entries that
transcode. -/
theorem C8_bad_filename (e : EncSvc) (ctx : Ctx) (ini : String) (act : ActivePlugins)
    (lo : LoadOrder) (hne : ∀ p ∈ apEntrySeq ctx act lo, p.name ≠ "") :
    (ActivePlugins.Save e ctx ini act lo).2 =
      (((apEntrySeq ctx act lo).filter
        (fun p => !(e.canEncode p.name))).map Plugin.name).getLast? ∧
    ((∀ p ∈ apEntrySeq ctx act lo, e.canEncode p.name = true) →
      (ActivePlugins.Save e ctx ini act lo).2 = none) ∧
    (ActivePlugins.Save e ctx ini act lo).1 =
      apSaveBase ctx ini ++
      (if ctx.method = Method.timestamp then
        concatStr ((List.enumFrom 0 (apEntrySeq ctx act lo)).map (fun x =>
          (if decide (ctx.id = GameId.tes3) then "GameFile" ++ toString x.1 ++ "=" else "") ++
          (if e.canEncode x.2.name then e.encodeStr x.2.name ++ "\n" else "")))
      else
        concatStr ((apEntrySeq ctx act lo).map (fun p =>
          if e.canEncode p.name then e.encodeStr p.name ++ "\n" else ""))) := by
  have hfnames : ∀ x ∈ ((apEntrySeq ctx act lo).filter
      (fun p => !(e.canEncode p.name))).map Plugin.name, x ≠ "" := by
    intro x hx
    obtain ⟨p, hp, rfl⟩ := List.mem_map.mp hx
    exact hne p (List.mem_of_mem_filter hp)
  have h1 : (ActivePlugins.Save e ctx ini act lo).2 =
      (((apEntrySeq ctx act lo).filter
        (fun p => !(e.canEncode p.name))).map Plugin.name).getLast? := by
    show (if (apSaveRun e ctx ini act lo).2 = "" then none
          else some (apSaveRun e ctx ini act lo).2) = _
    rw [apSaveRun_snd]
    exact warn_eq_getLast? _ hfnames
  refine ⟨h1, ?_, ?_⟩
  · intro hall
    rw [h1]
    rw [show (apEntrySeq ctx act lo).filter (fun p => !(e.canEncode p.name)) = [] from
      List.filter_eq_nil_iff.mpr (fun p hp => by simp [hall p hp])]
    rfl
  · show (apSaveRun e ctx ini act lo).1 = _
    unfold apSaveRun
    by_cases hm : ctx.method = Method.timestamp
    · rw [if_pos hm, if_pos hm, apSaveLoopTS_spec]
    · rw [if_neg hm, if_neg hm, apSaveLoopTF_spec]

/-- C8 witness: a TES5 textfile save over four entries of which
"Bad1.esp" and "Bad2.esp" fail to transcode: the warning carries
"Bad2.esp" (the last failure) and the two good names are written. -/
theorem C8_witness :
    (∀ p ∈ apEntrySeq ctxTes5 actW actW, p.name ≠ "") ∧
    ((ActivePlugins.Save encW ctxTes5 "" actW actW).2 =
      (((apEntrySeq ctxTes5 actW actW).filter
        (fun p => !(encW.canEncode p.name))).map Plugin.name).getLast? ∧
    ((∀ p ∈ apEntrySeq ctxTes5 actW actW, encW.canEncode p.name = true) →
      (ActivePlugins.Save encW ctxTes5 "" actW actW).2 = none) ∧
    (ActivePlugins.Save encW ctxTes5 "" actW actW).1 =
      apSaveBase ctxTes5 "" ++
      (if ctxTes5.method = Method.timestamp then
        concatStr ((List.enumFrom 0 (apEntrySeq ctxTes5 actW actW)).map (fun x =>
          (if decide (ctxTes5.id = GameId.tes3) then
            "GameFile" ++ toString x.1 ++ "=" else "") ++
          (if encW.canEncode x.2.name then encW.encodeStr x.2.name ++ "\n" else "")))
      else
        concatStr ((apEntrySeq ctxTes5 actW actW).map (fun p =>
          if encW.canEncode p.name then encW.encodeStr p.name ++ "\n" else "")))) :=
  ⟨by decide, C8_bad_filename encW ctxTes5 "" actW actW (by decide)⟩

/-! ## Claim C9: TES3 ini header preservation is byte-exact -/

/-- C9: in the TES3 save, when the exact case-sensitive byte string
"[Game Files]" does not occur in the existing ini contents, the
rewritten file is exactly the `GameFileN=` entry loop run from an empty
opening — every byte of the previous contents is discarded and the
output does not depend on them at all. -/
theorem C9_tes3_header_case_sensitive (e : EncSvc) (ctx : Ctx) (ini : String)
    (act : ActivePlugins) (lo : LoadOrder)
    (h3 : ctx.id = GameId.tes3) (hm : ctx.method = Method.timestamp)
    (hno : findSubIdx "[Game Files]".toList ini.toList = none) :
    (ActivePlugins.Save e ctx ini act lo).1 =
      (apSaveLoopTS e (decide (ctx.id = GameId.tes3)) (apEntrySeq ctx act lo) 0 "" "").1 := by
  show (apSaveRun e ctx ini act lo).1 = _
  unfold apSaveRun
  rw [if_pos hm]
  rw [show apSaveBase ctx ini = "" from by
    unfold apSaveBase apSaveSettings
    rw [if_pos h3]
    rw [show iniHead ini = "" from by unfold iniHead; rw [hno]]
    simp]

/-- C9 witness: a Morrowind.ini whose header reads "[game files]" — a
case mismatch — is discarded wholesale. -/
theorem C9_witness :
    ctxTes3.id = GameId.tes3 ∧ ctxTes3.method = Method.timestamp ∧
    findSubIdx "[Game Files]".toList iniC9.toList = none ∧
    (ActivePlugins.Save encId ctxTes3 iniC9 [mkPlugin "Tribunal.esm"] []).1 =
      (apSaveLoopTS encId (decide (ctxTes3.id = GameId.tes3))
        (apEntrySeq ctxTes3 [mkPlugin "Tribunal.esm"] []) 0 "" "").1 :=
  ⟨rfl, rfl, by decide,
    C9_tes3_header_case_sensitive encId ctxTes3 iniC9 [mkPlugin "Tribunal.esm"] []
      rfl rfl (by decide)⟩

/-! ## Claim C10: the TES5 master skip compares case-sensitively -/

/-- C10: in the TES5 TEXTFILE save, the decision to skip the canonical
master compares names with `std::string::operator==` — byte equality —
so an active load-order entry whose name equals the configured master
only up to case is NOT skipped (it appears in the written entry
sequence), while an entry whose name is byte-equal to the master is
skipped. -/
theorem C10_master_skip_case_sensitive (ctx : Ctx) (act : ActivePlugins) (lo : LoadOrder)
    (p : Plugin) (h5 : ctx.id = GameId.tes5) (hm : ctx.method = Method.textfile)
    (hp : p ∈ lo) (hact : act.any (fun q => pluginEq q p) = true)
    (_hci : pluginEq p (mkPlugin ctx.masterFile) = true)
    (hcs : p.name ≠ ctx.masterFile) :
    p ∈ apEntrySeq ctx act lo ∧
    ∀ q ∈ lo, q.name = ctx.masterFile → q ∉ apEntrySeq ctx act lo := by
  have hmethod : ¬ctx.method = Method.timestamp := by
    rw [hm]
    intro hx
    cases hx
  unfold apEntrySeq
  rw [if_neg hmethod]
  constructor
  · refine List.mem_filter.mpr ⟨hp, ?_⟩
    simp [hact, hcs]
  · intro q hq hqn hmem
    have hpred := (List.mem_filter.mp hmem).2
    simp [h5, hqn] at hpred

/-- C10 witness: with master "Skyrim.esm", the active entry
"skyrim.esm" (differing only in case) is written, not skipped. -/
theorem C10_witness :
    ctxTes5.id = GameId.tes5 ∧ ctxTes5.method = Method.textfile ∧
    mkPlugin "skyrim.esm" ∈ loC10 ∧
    loC10.any (fun q => pluginEq q (mkPlugin "skyrim.esm")) = true ∧
    pluginEq (mkPlugin "skyrim.esm") (mkPlugin ctxTes5.masterFile) = true ∧
    (mkPlugin "skyrim.esm").name ≠ ctxTes5.masterFile ∧
    (mkPlugin "skyrim.esm" ∈ apEntrySeq ctxTes5 loC10 loC10 ∧
      ∀ q ∈ loC10, q.name = ctxTes5.masterFile → q ∉ apEntrySeq ctxTes5 loC10 loC10) :=
  ⟨rfl, rfl, by decide, by decide, by decide, by decide,
    C10_master_skip_case_sensitive ctxTes5 loC10 loC10 (mkPlugin "skyrim.esm")
      rfl rfl (by decide) (by decide) (by decide) (by decide)⟩

end Liblo
